import Mathlib

/-!
# Verification of the tabrouter tab-list state machine

Shallow embedding of the reducer returned by `createTabsReducer`, the
initializer `getInitialState` (both in `TabRouterProvider`), and the
`Link` component's `handleClick`, together with proofs about the spec's
claims over them.

Modelling conventions:
* A JavaScript array of tabs is a `List (Option Tab)`.  A `none` entry
  models an `undefined` element or an array hole (the two are observably
  equivalent for every operation reached from a hole-free state in one
  step, which is all the claims need); well-typed `Tab[]` values contain
  no `none`.
* `active_index` is an `Int` (the claims only exercise integral indices).
* A thrown `TypeError` (property access on `undefined`) is `Except.error ()`.
* The `sessionStorage.setItem` calls are recorded as a list of
  `StorageWrite` values carrying the pre-serialization arguments; the
  `typeof window !== "undefined"` guard is taken to be true (browser
  context), so the persist block runs on every non-early-return branch.
-/

deriving instance DecidableEq for Except

/-- A query-parameter value: `string | number`.  Numbers are modelled as
`Int`; the reducer never computes with them, it only stores them. -/
inductive ParamVal
  | str (s : String)
  | num (n : Int)
deriving DecidableEq

/-- A parameter record `Record<string, string | number>`. -/
abbrev ParamMap := List (String × ParamVal)

/-- Embeds `interface Tab { path: string; params?: Record<string, string|number> }`. -/
structure Tab where
  path : String
  params : Option ParamMap
deriving DecidableEq

/-- Embeds `interface TabsState { tabs: Tab[]; active_index: number }`.
`none` entries model `undefined` elements / holes (see file header). -/
structure TabsState where
  tabs : List (Option Tab)
  active_index : Int
deriving DecidableEq

/-- The closed action vocabulary of the reducer (`TabsAction` in the source). -/
inductive TabsAction
  | addTab (t : Tab)
  | replaceTab (t : Tab)
  | closeTab (path : String)
  | closeOtherTabs (path : String)
  | setActiveTab (path : String)
  | reorderTabs (fromIndex toIndex : Int)
  | updateTabParams (path : String) (params : Option ParamMap)
deriving DecidableEq

/-- Embeds `Required<TabRouterConfig>`. -/
structure TabRouterConfig where
  storageKey : String
  activeTabStorageKey : String
  initialPath : String
deriving DecidableEq

/-- The `defaultConfig` object from the source. -/
def defaultConfig : TabRouterConfig :=
  { storageKey := "tabrouter-tabs"
    activeTabStorageKey := "tabrouter-active-tab"
    initialPath := "/" }

/-- One `sessionStorage.setItem` call, recorded with its pre-serialization
argument: `tabsJson k ts` is `setItem(k, JSON.stringify(ts))` and
`activeIdx k i` is `setItem(k, String(i))`. -/
inductive StorageWrite
  | tabsJson (key : String) (tabs : List (Option Tab))
  | activeIdx (key : String) (i : Int)
deriving DecidableEq

/-! ## JavaScript array operations used by the reducer -/

/-- Models `tabs.findIndex(tab => tab.path === p)`.  `.error ()` is the
`TypeError` thrown when the callback reads `.path` of an `undefined`
entry; `.ok (-1)` is not-found. -/
def findIndexPath : List (Option Tab) → String → Except Unit Int
  | [], _ => .ok (-1)
  | none :: _, _ => .error ()
  | some t :: rest, p =>
    if t.path = p then .ok 0
    else
      match findIndexPath rest p with
      | .error () => .error ()
      | .ok i => .ok (if i = -1 then -1 else i + 1)

/-- Models `tabs.find(tab => tab.path === p)`: `.ok none` is `undefined`
(no match), `.error ()` a `TypeError` on an `undefined` entry. -/
def findPath : List (Option Tab) → String → Except Unit (Option Tab)
  | [], _ => .ok none
  | none :: _, _ => .error ()
  | some t :: rest, p => if t.path = p then .ok (some t) else findPath rest p

/-- Models `tabs.map((tab, idx) => idx === i ? newTab : tab)`: the entry
whose index equals `i` is replaced by `newTab`.  (For an `i` produced by
`findIndex` the entries up to `i` are never `undefined`.) -/
def mapReplaceAt : List (Option Tab) → Int → Tab → List (Option Tab)
  | [], _, _ => []
  | x :: rest, i, t => (if i = 0 then some t else x) :: mapReplaceAt rest (i - 1) t

/-- Models `tabs.map((tab, idx) => idx === i ? { ...tab, params: ps } : tab)`
where `ps` is already the result of `params || {}`.  (The entry at an `i`
produced by `findIndex` is never `undefined`.) -/
def mapSetParamsAt : List (Option Tab) → Int → ParamMap → List (Option Tab)
  | [], _, _ => []
  | x :: rest, i, ps =>
    (if i = 0 then x.map (fun t => { t with params := some ps }) else x) ::
      mapSetParamsAt rest (i - 1) ps

/-- Models `tabs.filter((_, idx) => idx !== i)`. -/
def filterIdxNe : List (Option Tab) → Int → List (Option Tab)
  | [], _ => []
  | x :: rest, i =>
    if i = 0 then filterIdxNe rest (i - 1) else x :: filterIdxNe rest (i - 1)

/-- Models the element assignment `arr[i] = v` on (a copy of) a JS array:
a negative `i` creates a non-index property and leaves the array's
elements unchanged; `i < length` overwrites; `i ≥ length` pads the array
with holes up to `i` and grows it. -/
def jsSetElem (l : List (Option Tab)) (i : Int) (v : Tab) : List (Option Tab) :=
  if i < 0 then l
  else if i.toNat < l.length then l.set i.toNat (some v)
  else l ++ List.replicate (i.toNat - l.length) none ++ [some v]

/-- The start-index normalization of `Array.prototype.splice`: a negative
index counts back from the end, then the result is clamped to `[0, len]`. -/
def spliceStart (len : Nat) (i : Int) : Nat :=
  if i < 0 then ((len : Int) + i).toNat else min i.toNat len

/-- Models `const [moved] = arr.splice(from, 1)`: returns the removed
element (`none`, i.e. `undefined`, when nothing was removed) and the
remaining array. -/
def spliceRemoveOne (l : List (Option Tab)) (fromIdx : Int) :
    Option Tab × List (Option Tab) :=
  let k := spliceStart l.length fromIdx
  if h : k < l.length then (l.get ⟨k, h⟩, l.eraseIdx k)
  else (none, l)

/-- Models `arr.splice(to, 0, v)`: inserts `v` at the clamped position. -/
def spliceInsertOne (l : List (Option Tab)) (toIdx : Int) (v : Option Tab) :
    List (Option Tab) :=
  l.insertIdx (spliceStart l.length toIdx) v

/-! ## The reducer -/

/-- The two `sessionStorage.setItem` calls of the persist block at the end
of the reducer. -/
def persistWrites (cfg : TabRouterConfig) (ns : TabsState) : List StorageWrite :=
  [.tabsJson cfg.storageKey ns.tabs, .activeIdx cfg.activeTabStorageKey ns.active_index]

/-- One application of the reducer returned by `createTabsReducer config`:
the next state plus the storage writes performed.  `.error ()` models a
thrown `TypeError` (reachable only from states with `undefined` entries). -/
def tabsReducer (cfg : TabRouterConfig) (s : TabsState) (a : TabsAction) :
    Except Unit (TabsState × List StorageWrite) :=
  match a with
  | .addTab newTab =>
    match findIndexPath s.tabs newTab.path with
    | .error () => .error ()
    | .ok existingTab =>
      if existingTab ≠ -1 then
        let ns : TabsState :=
          { s with
            active_index := existingTab
            tabs := mapReplaceAt s.tabs existingTab newTab }
        .ok (ns, persistWrites cfg ns)
      else
        let newTabs := s.tabs ++ [some newTab]
        let ns : TabsState :=
          { tabs := newTabs, active_index := (newTabs.length : Int) - 1 }
        .ok (ns, persistWrites cfg ns)
  | .replaceTab newTab =>
    match findIndexPath s.tabs newTab.path with
    | .error () => .error ()
    | .ok existingTab =>
      if existingTab ≠ -1 then
        let ns : TabsState := { s with active_index := existingTab }
        .ok (ns, persistWrites cfg ns)
      else
        let ns : TabsState := { s with tabs := jsSetElem s.tabs s.active_index newTab }
        .ok (ns, persistWrites cfg ns)
  | .closeTab closingPath =>
    match findIndexPath s.tabs closingPath with
    | .error () => .error ()
    | .ok closingIndex =>
      if closingIndex = -1 ∨ s.tabs.length < 2 then .ok (s, [])
      else
        let newTabs := filterIdxNe s.tabs closingIndex
        let newActiveIndex : Int :=
          if s.active_index = closingIndex then
            if newTabs.length = 0 then 0
            else min closingIndex ((newTabs.length : Int) - 1)
          else if s.active_index > closingIndex then max 0 (s.active_index - 1)
          else s.active_index
        let ns : TabsState := { tabs := newTabs, active_index := newActiveIndex }
        .ok (ns, persistWrites cfg ns)
  | .closeOtherTabs keepPath =>
    match findPath s.tabs keepPath with
    | .error () => .error ()
    | .ok none => .ok (s, [])
    | .ok (some keepTab) =>
      let ns : TabsState := { tabs := [some keepTab], active_index := 0 }
      .ok (ns, persistWrites cfg ns)
  | .setActiveTab p =>
    match findIndexPath s.tabs p with
    | .error () => .error ()
    | .ok tabIndex =>
      if tabIndex = -1 then .ok (s, [])
      else
        let ns : TabsState := { s with active_index := tabIndex }
        .ok (ns, persistWrites cfg ns)
  | .reorderTabs fromIndex toIndex =>
    let removed := spliceRemoveOne s.tabs fromIndex
    let newTabs := spliceInsertOne removed.2 toIndex removed.1
    let ns : TabsState := { tabs := newTabs, active_index := toIndex }
    .ok (ns, persistWrites cfg ns)
  | .updateTabParams p params =>
    match findIndexPath s.tabs p with
    | .error () => .error ()
    | .ok tabIndex =>
      if tabIndex = -1 then .ok (s, [])
      else
        let ns : TabsState :=
          { tabs := mapSetParamsAt s.tabs tabIndex (params.getD [])
            active_index := tabIndex }
        .ok (ns, persistWrites cfg ns)

/-! ## The initializer `getInitialState` -/

/-- A JavaScript value, restricted to what can flow out of `JSON.parse`
here.  Numbers are modelled as `Int` (JSON numbers produced in these
claims are integral). -/
inductive Js
  | jsNull
  | boolV (b : Bool)
  | numV (n : Int)
  | strV (s : String)
  | arrV (elems : List Js)
  | objV (fields : List (String × Js))

/-- JavaScript truthiness of a `Js` value (`NaN` cannot arise from
`JSON.parse`, so `numV` covers all numbers reaching this test). -/
def jsTruthy : Js → Bool
  | .jsNull => false
  | .boolV b => b
  | .numV n => n != 0
  | .strV s => s != ""
  | .arrV _ => true
  | .objV _ => true

/-- The `initialTab` object `{ path: initialPath, params: {} }` as the JS
value it denotes. -/
def initialTabJs (initialPath : String) : Js :=
  .objV [("path", .strV initialPath), ("params", .objV [])]

/-- The object literal returned by `getInitialState`.  Its `tabs` field is
an arbitrary JS value: the source assigns the raw `JSON.parse` result
without validating that it is an array of tabs. -/
structure InitState where
  tabs : Js
  active_index : Int

/-- Shallow embedding of `getInitialState` (browser branch; the
`typeof window === "undefined"` early return is server-only).

External built-ins are passed as oracles: `jsonParse s` is what
`JSON.parse(s)` does (`.error ()` = throws a `SyntaxError`), and
`toNumber s` is what `Number(s)` yields (`none` = `NaN`; results are
restricted to the integral values the claims exercise).  `storedTabs` and
`storedActiveIndex` are the two `sessionStorage.getItem` results
(`none` = `null`).  A parse exception propagates to the caller. -/
def getInitialState (cfg : TabRouterConfig)
    (jsonParse : String → Except Unit Js) (toNumber : String → Option Int)
    (storedTabs storedActiveIndex : Option String) : Except Unit InitState :=
  let initialTab := initialTabJs cfg.initialPath
  let tabsVal : Except Unit Js :=
    match storedTabs with
    | some str =>
      if str ≠ "" then
        match jsonParse str with
        | .error () => .error ()
        | .ok v => .ok (if jsTruthy v then v else .arrV [initialTab])
      else .ok (.arrV [initialTab])
    | none => .ok (.arrV [initialTab])
  match tabsVal with
  | .error () => .error ()
  | .ok tv =>
    let idx : Int :=
      match storedActiveIndex with
      | some str =>
        if str ≠ "" then
          match toNumber str with
          | some n => if n = 0 then 0 else n
          | none => 0
        else 0
      | none => 0
    .ok { tabs := tv, active_index := idx }

/-- The single-tab default state `{tabs: [initialTab], active_index: 0}`
that §4.3 of the spec says malformed persisted data must fall back to. -/
def defaultInitState (cfg : TabRouterConfig) : InitState :=
  { tabs := .arrV [initialTabJs cfg.initialPath], active_index := 0 }

/-! ## The `Link` component's click handler -/

/-- The fields of the React mouse event that `handleClick` inspects. -/
structure ClickEvent where
  defaultPrevented : Bool
  metaKey : Bool
  ctrlKey : Bool
  shiftKey : Bool
  altKey : Bool
deriving DecidableEq

/-- The `parsedHref` destination descriptor `{ path, params, hash }`. -/
structure ParsedHref where
  path : String
  params : ParamMap
  hash : String
deriving DecidableEq

/-- A facade operation invoked by `handleClick`, with its argument. -/
inductive NavOp
  | pushOp (path : String) (params : ParamMap)
  | replaceOp (path : String) (params : ParamMap)
  | switchOp (path : String)
deriving DecidableEq

/-- Models `tabs.some(tab => tab.path === p)` (the `tabExists` memo):
`.error ()` is the `TypeError` on an `undefined` entry. -/
def someHasPath : List (Option Tab) → String → Except Unit Bool
  | [], _ => .ok false
  | none :: _, _ => .error ()
  | some t :: rest, p => if t.path = p then .ok true else someHasPath rest p

/-- Shallow embedding of the `Link` component's `handleClick` (the user
`onClick` callback is summarized by the `defaultPrevented` flag it may
set).  `.ok none` means the handler returned without invoking any facade
operation (browser handles the click); `.ok (some op)` means exactly the
facade operation `op` was invoked.  The deferred hash-scroll is a
DOM-only effect and is not part of the result. -/
def handleClick (tabs : List (Option Tab)) (target : Option String)
    (replaceFlag : Bool) (e : ClickEvent) (dest : ParsedHref) :
    Except Unit (Option NavOp) :=
  if e.defaultPrevented || e.metaKey || e.ctrlKey || e.shiftKey || e.altKey then
    .ok none
  else if target = some "_blank" then
    .ok (some (.pushOp dest.path dest.params))
  else
    match someHasPath tabs dest.path with
    | .error () => .error ()
    | .ok tabExists =>
      let shouldSwitchToExisting :=
        tabExists && !replaceFlag && decide (target ≠ some "_blank")
      if shouldSwitchToExisting then .ok (some (.switchOp dest.path))
      else if replaceFlag then .ok (some (.replaceOp dest.path dest.params))
      else .ok (some (.pushOp dest.path dest.params))

/-! ## Specification-side predicates -/

/-- The paths of the (defined) tabs of a list, in order. -/
def pathsOf (l : List (Option Tab)) : List String :=
  l.filterMap (fun o => o.map Tab.path)

/-- The central invariants of the spec (its data-model section), as claim C1 states them: the active index is
in range whenever the tab list is non-empty, and no two tabs share a
path. -/
def StateInv (s : TabsState) : Prop :=
  (s.tabs ≠ [] → 0 ≤ s.active_index ∧ s.active_index < (s.tabs.length : Int)) ∧
    (pathsOf s.tabs).Nodup

instance : DecidablePred StateInv := fun s => by unfold StateInv; infer_instance

/-- A well-typed `Tab[]` value: no `undefined` entries / holes. -/
def WellTyped (s : TabsState) : Prop := ∀ x ∈ s.tabs, x.isSome

instance : DecidablePred WellTyped := fun s => by unfold WellTyped; infer_instance

/-- First index (if any) of the tab whose path is `p`; the clean `Nat`
counterpart of the JS `findIndex` result. -/
def pathIdx : List (Option Tab) → String → Option Nat
  | [], _ => none
  | none :: rest, p => (pathIdx rest p).map (· + 1)
  | some t :: rest, p =>
    if t.path = p then some 0 else (pathIdx rest p).map (· + 1)

/-- The reducer branches that claim C7 calls no-ops: the early returns
that skip the persist block. -/
def noOpBranch (s : TabsState) : TabsAction → Prop
  | .closeTab p => pathIdx s.tabs p = none ∨ s.tabs.length < 2
  | .closeOtherTabs p => pathIdx s.tabs p = none
  | .setActiveTab p => pathIdx s.tabs p = none
  | .updateTabParams p _ => pathIdx s.tabs p = none
  | _ => False

instance (s : TabsState) : DecidablePred (noOpBranch s) := fun a => by
  unfold noOpBranch; cases a <;> infer_instance

/-- The path of the active tab, when the active index points at a defined
tab. -/
def activePath (s : TabsState) : Option String :=
  if s.active_index < 0 then none
  else
    match s.tabs.get? s.active_index.toNat with
    | some (some t) => some t.path
    | _ => none

/-- JS rendering of an optional first-match index: `-1` for not found. -/
def jsIdx : Option Nat → Int
  | none => -1
  | some n => n

/-! ## Bridges between the JS operations and clean list operations -/

theorem jsIdx_ne_neg_one (n : Nat) : jsIdx (some n) ≠ -1 := by
  simp only [jsIdx]
  omega

theorem findIndexPath_eq_pathIdx (p : String) :
    ∀ l : List (Option Tab), (∀ x ∈ l, x.isSome) →
      findIndexPath l p = .ok (jsIdx (pathIdx l p))
  | [], _ => rfl
  | none :: rest, hw => by
    have := hw none (List.mem_cons_self _ _)
    simp [Option.isSome] at this
  | some t :: rest, hw => by
    have ih := findIndexPath_eq_pathIdx p rest
      (fun x hx => hw x (List.mem_cons_of_mem _ hx))
    by_cases hp : t.path = p
    · simp [findIndexPath, pathIdx, hp, jsIdx]
    · simp only [findIndexPath, pathIdx, hp, if_false, ih]
      cases hpi : pathIdx rest p with
      | none => simp [jsIdx]
      | some n => simp [jsIdx]

theorem pathIdx_lt_length {p : String} :
    ∀ {l : List (Option Tab)} {n : Nat}, pathIdx l p = some n → n < l.length := by
  intro l
  induction l with
  | nil => intro n h; simp [pathIdx] at h
  | cons x rest ih =>
    intro n h
    match x with
    | none =>
      simp only [pathIdx, Option.map_eq_some'] at h
      obtain ⟨m, hm, rfl⟩ := h
      have := ih hm
      simp only [List.length_cons]
      omega
    | some t =>
      simp only [pathIdx] at h
      by_cases hp : t.path = p
      · simp [hp] at h
        simp only [List.length_cons]
        omega
      · simp only [hp, if_false, Option.map_eq_some'] at h
        obtain ⟨m, hm, rfl⟩ := h
        have := ih hm
        simp only [List.length_cons]
        omega

theorem pathIdx_get {p : String} :
    ∀ {l : List (Option Tab)} {n : Nat}, pathIdx l p = some n →
      ∃ t : Tab, l.get? n = some (some t) ∧ t.path = p := by
  intro l
  induction l with
  | nil => intro n h; simp [pathIdx] at h
  | cons x rest ih =>
    intro n h
    match x with
    | none =>
      simp only [pathIdx, Option.map_eq_some'] at h
      obtain ⟨m, hm, rfl⟩ := h
      obtain ⟨t, ht, htp⟩ := ih hm
      exact ⟨t, by simpa [List.get?_cons_succ] using ht, htp⟩
    | some t =>
      simp only [pathIdx] at h
      by_cases hp : t.path = p
      · simp [hp] at h
        subst h
        exact ⟨t, rfl, hp⟩
      · simp only [hp, if_false, Option.map_eq_some'] at h
        obtain ⟨m, hm, rfl⟩ := h
        obtain ⟨u, hu, hup⟩ := ih hm
        exact ⟨u, by simpa [List.get?_cons_succ] using hu, hup⟩

theorem pathIdx_eq_none_iff {p : String} :
    ∀ {l : List (Option Tab)}, pathIdx l p = none ↔ p ∉ pathsOf l := by
  intro l
  induction l with
  | nil => simp [pathIdx, pathsOf]
  | cons x rest ih =>
    match x with
    | none => simpa [pathIdx, pathsOf, Option.map_eq_none'] using ih
    | some t =>
      by_cases hp : t.path = p
      · simp [pathIdx, pathsOf, hp]
      · simp [pathIdx, pathsOf, hp, Option.map_eq_none', ih, Ne.symm hp]

theorem mem_pathsOf_of_get? {l : List (Option Tab)} {n : Nat} {t : Tab}
    (h : l.get? n = some (some t)) : t.path ∈ pathsOf l := by
  have hmem : (some t) ∈ l := List.get?_mem h
  exact List.mem_filterMap.2 ⟨some t, hmem, rfl⟩

theorem pathIdx_of_get? {p : String} :
    ∀ {l : List (Option Tab)} {n : Nat} {t : Tab}, (pathsOf l).Nodup →
      l.get? n = some (some t) → t.path = p → pathIdx l p = some n := by
  intro l
  induction l with
  | nil => intro n t _ h; simp at h
  | cons x rest ih =>
    intro n t hnd hget htp
    match n with
    | 0 =>
      simp only [List.get?_cons_zero, Option.some.injEq] at hget
      subst hget
      simp [pathIdx, htp]
    | m + 1 =>
      simp only [List.get?_cons_succ] at hget
      match x with
      | none =>
        have : pathIdx rest p = some m := ih (by simpa [pathsOf] using hnd) hget htp
        simp [pathIdx, this]
      | some u =>
        have hnd' : (pathsOf rest).Nodup := by
          simpa [pathsOf] using (List.Nodup.of_cons (by simpa [pathsOf] using hnd))
        have hu : u.path ∉ pathsOf rest := by
          have := hnd
          simp only [pathsOf, List.filterMap_cons] at this
          simp only [Option.map_some'] at this
          exact (List.nodup_cons.1 this).1
        have hup : u.path ≠ p := fun hc => by
          have : t.path ∈ pathsOf rest := mem_pathsOf_of_get? hget
          rw [htp] at this
          rw [hc] at hu
          exact hu this
        have : pathIdx rest p = some m := ih hnd' hget htp
        simp [pathIdx, hup, this]

theorem findPath_eq_none {p : String} :
    ∀ {l : List (Option Tab)}, (∀ x ∈ l, x.isSome) → pathIdx l p = none →
      findPath l p = .ok none := by
  intro l
  induction l with
  | nil => intro _ _; rfl
  | cons x rest ih =>
    intro hw hpi
    match x with
    | none =>
      have := hw none (List.mem_cons_self _ _)
      simp [Option.isSome] at this
    | some t =>
      simp only [pathIdx] at hpi
      by_cases hp : t.path = p
      · simp [hp] at hpi
      · simp only [hp, if_false, Option.map_eq_none'] at hpi
        simp only [findPath, hp, if_false]
        exact ih (fun x hx => hw x (List.mem_cons_of_mem _ hx)) hpi

theorem findPath_eq_some {p : String} :
    ∀ {l : List (Option Tab)} {n : Nat} {t : Tab}, (∀ x ∈ l, x.isSome) →
      pathIdx l p = some n → l.get? n = some (some t) →
      findPath l p = .ok (some t) := by
  intro l
  induction l with
  | nil => intro n t _ h; simp [pathIdx] at h
  | cons x rest ih =>
    intro n t hw hpi hget
    match x with
    | none =>
      have := hw none (List.mem_cons_self _ _)
      simp [Option.isSome] at this
    | some u =>
      simp only [pathIdx] at hpi
      by_cases hp : u.path = p
      · simp only [hp, if_true] at hpi
        have : n = 0 := by
          cases hpi
          rfl
        subst this
        simp only [List.get?_cons_zero, Option.some.injEq] at hget
        subst hget
        simp [findPath, hp]
      · simp only [hp, if_false, Option.map_eq_some'] at hpi
        obtain ⟨m, hm, rfl⟩ := hpi
        simp only [List.get?_cons_succ] at hget
        simp only [findPath, hp, if_false]
        exact ih (fun x hx => hw x (List.mem_cons_of_mem _ hx)) hm hget

theorem mapReplaceAt_neg (t : Tab) :
    ∀ (l : List (Option Tab)) (i : Int), i < 0 → mapReplaceAt l i t = l
  | [], _, _ => rfl
  | x :: rest, i, hi => by
    have hne : ¬(i = 0) := by omega
    simp only [mapReplaceAt, hne, if_false]
    rw [mapReplaceAt_neg t rest (i - 1) (by omega)]

theorem mapReplaceAt_eq_set (t : Tab) :
    ∀ (l : List (Option Tab)) (n : Nat), mapReplaceAt l (n : Int) t = l.set n (some t)
  | [], _ => by simp [mapReplaceAt]
  | x :: rest, 0 => by
    simp only [mapReplaceAt, Nat.cast_zero, if_true, List.set]
    rw [mapReplaceAt_neg t rest (0 - 1) (by omega)]
  | x :: rest, n + 1 => by
    have hne : ¬((n + 1 : Nat) : Int) = 0 := by omega
    simp only [mapReplaceAt, hne, if_false, List.set]
    have harith : ((n + 1 : Nat) : Int) - 1 = (n : Int) := by omega
    rw [harith, mapReplaceAt_eq_set t rest n]

theorem mapSetParamsAt_neg (ps : ParamMap) :
    ∀ (l : List (Option Tab)) (i : Int), i < 0 → mapSetParamsAt l i ps = l
  | [], _, _ => rfl
  | x :: rest, i, hi => by
    have hne : ¬(i = 0) := by omega
    simp only [mapSetParamsAt, hne, if_false]
    rw [mapSetParamsAt_neg ps rest (i - 1) (by omega)]

theorem mapSetParamsAt_eq_set (ps : ParamMap) :
    ∀ (l : List (Option Tab)) (n : Nat) (u : Tab), l.get? n = some (some u) →
      mapSetParamsAt l (n : Int) ps = l.set n (some { u with params := some ps })
  | [], n, u, h => by simp at h
  | x :: rest, 0, u, h => by
    simp only [List.get?_cons_zero, Option.some.injEq] at h
    subst h
    simp only [mapSetParamsAt, Nat.cast_zero, if_true, List.set, Option.map_some']
    rw [mapSetParamsAt_neg ps rest (0 - 1) (by omega)]
  | x :: rest, n + 1, u, h => by
    simp only [List.get?_cons_succ] at h
    have hne : ¬((n + 1 : Nat) : Int) = 0 := by omega
    simp only [mapSetParamsAt, hne, if_false, List.set]
    have harith : ((n + 1 : Nat) : Int) - 1 = (n : Int) := by omega
    rw [harith, mapSetParamsAt_eq_set ps rest n u h]

theorem filterIdxNe_neg :
    ∀ (l : List (Option Tab)) (i : Int), i < 0 → filterIdxNe l i = l
  | [], _, _ => rfl
  | x :: rest, i, hi => by
    have hne : ¬(i = 0) := by omega
    simp only [filterIdxNe, hne, if_false]
    rw [filterIdxNe_neg rest (i - 1) (by omega)]

theorem filterIdxNe_eq_eraseIdx :
    ∀ (l : List (Option Tab)) (n : Nat), filterIdxNe l (n : Int) = l.eraseIdx n
  | [], _ => rfl
  | x :: rest, 0 => by
    simp only [filterIdxNe, Nat.cast_zero, if_true, List.eraseIdx]
    rw [filterIdxNe_neg rest (0 - 1) (by omega)]
  | x :: rest, n + 1 => by
    have hne : ¬((n + 1 : Nat) : Int) = 0 := by omega
    simp only [filterIdxNe, hne, if_false, List.eraseIdx]
    have harith : ((n + 1 : Nat) : Int) - 1 = (n : Int) := by omega
    rw [harith, filterIdxNe_eq_eraseIdx rest n]

theorem jsSetElem_in_range {l : List (Option Tab)} {i : Int} (v : Tab)
    (h0 : 0 ≤ i) (hl : i.toNat < l.length) :
    jsSetElem l i v = l.set i.toNat (some v) := by
  simp only [jsSetElem, if_neg (by omega : ¬ i < 0), if_pos hl]

theorem spliceRemoveOne_in_range {l : List (Option Tab)} {i : Int}
    (h0 : 0 ≤ i) (hl : i.toNat < l.length) :
    spliceRemoveOne l i = (l.get ⟨i.toNat, hl⟩, l.eraseIdx i.toNat) := by
  have hs : spliceStart l.length i = i.toNat := by
    simp only [spliceStart, if_neg (by omega : ¬ i < 0)]
    omega
  simp only [spliceRemoveOne, hs, dif_pos hl]

theorem spliceRemoveOne_high {l : List (Option Tab)} {i : Int}
    (hl : (l.length : Int) ≤ i) : spliceRemoveOne l i = (none, l) := by
  have hs : spliceStart l.length i = l.length := by
    simp only [spliceStart, if_neg (by omega : ¬ i < 0)]
    omega
  simp only [spliceRemoveOne, hs, dif_neg (lt_irrefl l.length)]

theorem spliceInsertOne_of_le {l : List (Option Tab)} {i : Int} (v : Option Tab)
    (h0 : 0 ≤ i) (hl : i.toNat ≤ l.length) :
    spliceInsertOne l i v = l.insertIdx i.toNat v := by
  have hs : spliceStart l.length i = i.toNat := by
    simp only [spliceStart, if_neg (by omega : ¬ i < 0)]
    omega
  simp only [spliceInsertOne, hs]

/-! ## Lemmas about `pathsOf` -/

theorem pathsOf_nil : pathsOf [] = [] := rfl

theorem pathsOf_cons_none (l : List (Option Tab)) :
    pathsOf (none :: l) = pathsOf l := rfl

theorem pathsOf_cons_some (t : Tab) (l : List (Option Tab)) :
    pathsOf (some t :: l) = t.path :: pathsOf l := rfl

theorem pathsOf_append (l l' : List (Option Tab)) :
    pathsOf (l ++ l') = pathsOf l ++ pathsOf l' := by
  simp [pathsOf, List.filterMap_append]

theorem pathsOf_replicate_none (k : Nat) :
    pathsOf (List.replicate k none) = [] := by
  induction k with
  | zero => rfl
  | succ m ih => simpa [List.replicate, pathsOf_cons_none] using ih

theorem pathsOf_set_same_path :
    ∀ {l : List (Option Tab)} {n : Nat} {u t : Tab}, l.get? n = some (some u) →
      u.path = t.path → pathsOf (l.set n (some t)) = pathsOf l := by
  intro l
  induction l with
  | nil => intro n u t h; simp at h
  | cons x rest ih =>
    intro n u t hget hp
    match n with
    | 0 =>
      simp only [List.get?_cons_zero, Option.some.injEq] at hget
      subst hget
      simp [List.set, pathsOf_cons_some, hp]
    | m + 1 =>
      simp only [List.get?_cons_succ] at hget
      match x with
      | none => simp [List.set, pathsOf_cons_none, ih hget hp]
      | some w => simp [List.set, pathsOf_cons_some, ih hget hp]

theorem mem_pathsOf_set :
    ∀ {l : List (Option Tab)} {n : Nat} {t : Tab} {q : String},
      q ∈ pathsOf (l.set n (some t)) → q = t.path ∨ q ∈ pathsOf l := by
  intro l
  induction l with
  | nil => intro n t q h; exact Or.inr (by simpa [List.set] using h)
  | cons x rest ih =>
    intro n t q h
    match n with
    | 0 =>
      simp only [List.set, pathsOf_cons_some, List.mem_cons] at h
      match x with
      | none => simpa [pathsOf_cons_none] using h
      | some w =>
        rcases h with h | h
        · exact Or.inl h
        · exact Or.inr (by simp [pathsOf_cons_some, List.mem_cons, h])
    | m + 1 =>
      match x with
      | none =>
        simp only [List.set, pathsOf_cons_none] at h
        simpa [pathsOf_cons_none] using ih h
      | some w =>
        simp only [List.set, pathsOf_cons_some, List.mem_cons] at h
        rcases h with h | h
        · exact Or.inr (by simp [pathsOf_cons_some, h])
        · rcases ih h with h' | h'
          · exact Or.inl h'
          · exact Or.inr (by simp [pathsOf_cons_some, List.mem_cons, h'])

theorem nodup_pathsOf_set :
    ∀ {l : List (Option Tab)} {n : Nat} {t : Tab}, (pathsOf l).Nodup →
      t.path ∉ pathsOf l → (pathsOf (l.set n (some t))).Nodup := by
  intro l
  induction l with
  | nil => intro n t _ _; simp [List.set, pathsOf_nil]
  | cons x rest ih =>
    intro n t hnd hfresh
    match n with
    | 0 =>
      simp only [List.set, pathsOf_cons_some, List.nodup_cons]
      have hrest_nd : (pathsOf rest).Nodup := by
        match x with
        | none => simpa [pathsOf_cons_none] using hnd
        | some w => exact (by simpa [pathsOf_cons_some, List.nodup_cons] using hnd : _ ∧ _).2
      refine ⟨fun hc => hfresh ?_, hrest_nd⟩
      match x with
      | none => simpa [pathsOf_cons_none] using hc
      | some w =>
        rw [pathsOf_cons_some]
        exact List.mem_cons_of_mem _ hc
    | m + 1 =>
      match x with
      | none =>
        rw [List.set, pathsOf_cons_none]
        rw [pathsOf_cons_none] at hnd hfresh
        exact ih hnd hfresh
      | some w =>
        rw [List.set, pathsOf_cons_some]
        rw [pathsOf_cons_some, List.nodup_cons] at hnd
        rw [pathsOf_cons_some] at hfresh
        have hw : w.path ∉ pathsOf rest := hnd.1
        have hfresh' : t.path ∉ pathsOf rest :=
          fun hc => hfresh (List.mem_cons_of_mem _ hc)
        rw [List.nodup_cons]
        refine ⟨fun hc => ?_, ih hnd.2 hfresh'⟩
        rcases mem_pathsOf_set hc with h' | h'
        · exact hfresh (h' ▸ List.mem_cons_self _ _)
        · exact hw h'

theorem get_cons_eraseIdx_perm :
    ∀ (l : List (Option Tab)) (n : Nat) (h : n < l.length),
      (l.get ⟨n, h⟩ :: l.eraseIdx n).Perm l
  | x :: rest, 0, _ => by simp [List.eraseIdx]
  | x :: rest, n + 1, h => by
    have hlt : n < rest.length := by
      simpa [List.length_cons] using h
    have ih := get_cons_eraseIdx_perm rest n hlt
    simp only [List.get, List.eraseIdx]
    exact (List.Perm.swap x (rest.get ⟨n, hlt⟩) (rest.eraseIdx n)).trans (ih.cons x)

/-! ## Branch characterizations of the reducer on well-typed states -/

theorem reduce_addTab_found {cfg : TabRouterConfig} {s : TabsState} {t : Tab} {n : Nat}
    (hw : WellTyped s) (hpi : pathIdx s.tabs t.path = some n) :
    tabsReducer cfg s (.addTab t) =
      .ok (⟨s.tabs.set n (some t), (n : Int)⟩,
        persistWrites cfg ⟨s.tabs.set n (some t), (n : Int)⟩) := by
  have hfi := findIndexPath_eq_pathIdx t.path s.tabs hw
  rw [hpi] at hfi
  simp only [tabsReducer, hfi, jsIdx]
  rw [if_pos (by omega : ¬((n : Int) = -1))]
  rw [mapReplaceAt_eq_set]

theorem reduce_addTab_new {cfg : TabRouterConfig} {s : TabsState} {t : Tab}
    (hw : WellTyped s) (hpi : pathIdx s.tabs t.path = none) :
    tabsReducer cfg s (.addTab t) =
      .ok (⟨s.tabs ++ [some t], (s.tabs.length : Int)⟩,
        persistWrites cfg ⟨s.tabs ++ [some t], (s.tabs.length : Int)⟩) := by
  have hfi := findIndexPath_eq_pathIdx t.path s.tabs hw
  rw [hpi] at hfi
  simp only [tabsReducer, hfi, jsIdx]
  rw [if_neg (by simp : ¬¬((-1 : Int) = -1))]
  have harith : ((s.tabs ++ [some t]).length : Int) - 1 = (s.tabs.length : Int) := by
    simp [List.length_append]
  rw [harith]

theorem reduce_replaceTab_found {cfg : TabRouterConfig} {s : TabsState} {t : Tab} {n : Nat}
    (hw : WellTyped s) (hpi : pathIdx s.tabs t.path = some n) :
    tabsReducer cfg s (.replaceTab t) =
      .ok ({ s with active_index := (n : Int) },
        persistWrites cfg { s with active_index := (n : Int) }) := by
  have hfi := findIndexPath_eq_pathIdx t.path s.tabs hw
  rw [hpi] at hfi
  simp only [tabsReducer, hfi, jsIdx]
  rw [if_pos (by omega : ¬((n : Int) = -1))]

theorem reduce_replaceTab_new {cfg : TabRouterConfig} {s : TabsState} {t : Tab}
    (hw : WellTyped s) (hpi : pathIdx s.tabs t.path = none) :
    tabsReducer cfg s (.replaceTab t) =
      .ok ({ s with tabs := jsSetElem s.tabs s.active_index t },
        persistWrites cfg { s with tabs := jsSetElem s.tabs s.active_index t }) := by
  have hfi := findIndexPath_eq_pathIdx t.path s.tabs hw
  rw [hpi] at hfi
  simp only [tabsReducer, hfi, jsIdx]
  rw [if_neg (by simp : ¬¬((-1 : Int) = -1))]

theorem reduce_closeTab_noop {cfg : TabRouterConfig} {s : TabsState} {p : String}
    (hw : WellTyped s) (h : pathIdx s.tabs p = none ∨ s.tabs.length < 2) :
    tabsReducer cfg s (.closeTab p) = .ok (s, []) := by
  have hfi := findIndexPath_eq_pathIdx p s.tabs hw
  rcases h with h | h
  · rw [h] at hfi
    simp [tabsReducer, hfi, jsIdx]
  · cases hpi : pathIdx s.tabs p with
    | none =>
      rw [hpi] at hfi
      simp [tabsReducer, hfi, jsIdx]
    | some n =>
      rw [hpi] at hfi
      simp only [tabsReducer, hfi, jsIdx]
      rw [if_pos (Or.inr h)]

theorem reduce_closeTab_found {cfg : TabRouterConfig} {s : TabsState} {p : String} {n : Nat}
    (hw : WellTyped s) (hpi : pathIdx s.tabs p = some n) (hlen : 2 ≤ s.tabs.length) :
    tabsReducer cfg s (.closeTab p) =
      (let newActive : Int :=
        if s.active_index = (n : Int) then min (n : Int) ((s.tabs.length : Int) - 2)
        else if s.active_index > (n : Int) then max 0 (s.active_index - 1)
        else s.active_index
      .ok (⟨s.tabs.eraseIdx n, newActive⟩,
        persistWrites cfg ⟨s.tabs.eraseIdx n, newActive⟩)) := by
  have hfi := findIndexPath_eq_pathIdx p s.tabs hw
  rw [hpi] at hfi
  have hlt : n < s.tabs.length := pathIdx_lt_length hpi
  simp only [tabsReducer, hfi, jsIdx]
  rw [if_neg (by push_neg; exact ⟨by omega, by omega⟩)]
  rw [filterIdxNe_eq_eraseIdx]
  have hlenE : (s.tabs.eraseIdx n).length = s.tabs.length - 1 :=
    List.length_eraseIdx_of_lt hlt
  rw [if_neg (by omega : ¬(s.tabs.eraseIdx n).length = 0)]
  have harith : ((s.tabs.eraseIdx n).length : Int) - 1 = (s.tabs.length : Int) - 2 := by
    rw [hlenE]
    omega
  rw [harith]

theorem reduce_closeOthers_noop {cfg : TabRouterConfig} {s : TabsState} {p : String}
    (hw : WellTyped s) (hpi : pathIdx s.tabs p = none) :
    tabsReducer cfg s (.closeOtherTabs p) = .ok (s, []) := by
  have hfp := findPath_eq_none hw hpi
  simp only [tabsReducer, hfp]

theorem reduce_closeOthers_found {cfg : TabRouterConfig} {s : TabsState} {p : String}
    {n : Nat} {u : Tab} (hw : WellTyped s) (hpi : pathIdx s.tabs p = some n)
    (hget : s.tabs.get? n = some (some u)) :
    tabsReducer cfg s (.closeOtherTabs p) =
      .ok (⟨[some u], 0⟩, persistWrites cfg ⟨[some u], 0⟩) := by
  have hfp := findPath_eq_some hw hpi hget
  simp only [tabsReducer, hfp]

theorem reduce_setActive_noop {cfg : TabRouterConfig} {s : TabsState} {p : String}
    (hw : WellTyped s) (hpi : pathIdx s.tabs p = none) :
    tabsReducer cfg s (.setActiveTab p) = .ok (s, []) := by
  have hfi := findIndexPath_eq_pathIdx p s.tabs hw
  rw [hpi] at hfi
  simp [tabsReducer, hfi, jsIdx]

theorem reduce_setActive_found {cfg : TabRouterConfig} {s : TabsState} {p : String} {n : Nat}
    (hw : WellTyped s) (hpi : pathIdx s.tabs p = some n) :
    tabsReducer cfg s (.setActiveTab p) =
      .ok ({ s with active_index := (n : Int) },
        persistWrites cfg { s with active_index := (n : Int) }) := by
  have hfi := findIndexPath_eq_pathIdx p s.tabs hw
  rw [hpi] at hfi
  simp only [tabsReducer, hfi, jsIdx]
  rw [if_neg (by omega : ¬((n : Int) = -1))]

theorem reduce_update_noop {cfg : TabRouterConfig} {s : TabsState} {p : String}
    {ps : Option ParamMap} (hw : WellTyped s) (hpi : pathIdx s.tabs p = none) :
    tabsReducer cfg s (.updateTabParams p ps) = .ok (s, []) := by
  have hfi := findIndexPath_eq_pathIdx p s.tabs hw
  rw [hpi] at hfi
  simp [tabsReducer, hfi, jsIdx]

theorem reduce_update_found {cfg : TabRouterConfig} {s : TabsState} {p : String} {n : Nat}
    {u : Tab} {ps : Option ParamMap} (hw : WellTyped s)
    (hpi : pathIdx s.tabs p = some n) (hget : s.tabs.get? n = some (some u)) :
    tabsReducer cfg s (.updateTabParams p ps) =
      .ok (⟨s.tabs.set n (some { u with params := some (ps.getD []) }), (n : Int)⟩,
        persistWrites cfg
          ⟨s.tabs.set n (some { u with params := some (ps.getD []) }), (n : Int)⟩) := by
  have hfi := findIndexPath_eq_pathIdx p s.tabs hw
  rw [hpi] at hfi
  simp only [tabsReducer, hfi, jsIdx]
  rw [if_neg (by omega : ¬((n : Int) = -1))]
  rw [mapSetParamsAt_eq_set _ _ _ u hget]

theorem reduce_reorder {cfg : TabRouterConfig} (s : TabsState) (f t : Int) :
    tabsReducer cfg s (.reorderTabs f t) =
      .ok (⟨spliceInsertOne (spliceRemoveOne s.tabs f).2 t (spliceRemoveOne s.tabs f).1, t⟩,
        persistWrites cfg
          ⟨spliceInsertOne (spliceRemoveOne s.tabs f).2 t (spliceRemoveOne s.tabs f).1, t⟩) :=
  rfl

theorem reduce_reorder_in_range {cfg : TabRouterConfig} {s : TabsState} {f t : Int}
    (hf0 : 0 ≤ f) (hf : f.toNat < s.tabs.length) (ht0 : 0 ≤ t)
    (ht : t.toNat < s.tabs.length) :
    tabsReducer cfg s (.reorderTabs f t) =
      .ok (⟨(s.tabs.eraseIdx f.toNat).insertIdx t.toNat (s.tabs.get ⟨f.toNat, hf⟩), t⟩,
        persistWrites cfg
          ⟨(s.tabs.eraseIdx f.toNat).insertIdx t.toNat (s.tabs.get ⟨f.toNat, hf⟩), t⟩) := by
  have h1 : spliceRemoveOne s.tabs f =
      (s.tabs.get ⟨f.toNat, hf⟩, s.tabs.eraseIdx f.toNat) :=
    spliceRemoveOne_in_range hf0 hf
  have hlenE : (s.tabs.eraseIdx f.toNat).length = s.tabs.length - 1 :=
    List.length_eraseIdx_of_lt hf
  have h2 : spliceInsertOne (s.tabs.eraseIdx f.toNat) t (s.tabs.get ⟨f.toNat, hf⟩) =
      (s.tabs.eraseIdx f.toNat).insertIdx t.toNat (s.tabs.get ⟨f.toNat, hf⟩) :=
    spliceInsertOne_of_le _ ht0 (by omega)
  simp only [reduce_reorder, h1]
  rw [h2]

/-! ## Small auxiliary list lemmas -/

theorem insertIdx_eraseIdx_get :
    ∀ (l : List (Option Tab)) (n : Nat) (h : n < l.length),
      (l.eraseIdx n).insertIdx n (l.get ⟨n, h⟩) = l
  | x :: rest, 0, _ => rfl
  | x :: rest, n + 1, h => by
    simp only [List.eraseIdx, List.get, List.insertIdx_succ_cons]
    rw [insertIdx_eraseIdx_get rest n (by simpa [List.length_cons] using h)]

theorem get?_set_self :
    ∀ (l : List (Option Tab)) (n : Nat) (a : Option Tab), n < l.length →
      (l.set n a).get? n = some a
  | [], _, _, h => by simp at h
  | x :: rest, 0, a, _ => rfl
  | x :: rest, n + 1, a, h => by
    simp only [List.set, List.get?_cons_succ]
    exact get?_set_self rest n a (by simpa [List.length_cons] using h)

theorem set_append_singleton :
    ∀ (l : List (Option Tab)) (x y : Option Tab), (l ++ [x]).set l.length y = l ++ [y]
  | [], _, _ => rfl
  | z :: rest, x, y => by
    show z :: (rest ++ [x]).set rest.length y = z :: (rest ++ [y])
    rw [set_append_singleton rest x y]

theorem pathIdx_append_singleton {p : String} {t : Tab} (hp : t.path = p) :
    ∀ l : List (Option Tab), pathIdx l p = none →
      pathIdx (l ++ [some t]) p = some l.length
  | [], _ => by simp [pathIdx, hp]
  | x :: rest, h => by
    match x with
    | none =>
      have h' : pathIdx rest p = none := by
        simpa [pathIdx, Option.map_eq_none'] using h
      show (pathIdx (rest ++ [some t]) p).map (· + 1) = some (rest.length + 1)
      rw [pathIdx_append_singleton hp rest h']
      rfl
    | some u =>
      by_cases hu : u.path = p
      · simp [pathIdx, hu] at h
      · have h' : pathIdx rest p = none := by
          simpa [pathIdx, hu, Option.map_eq_none'] using h
        show pathIdx (some u :: (rest ++ [some t])) p = some (rest.length + 1)
        simp only [pathIdx, hu, if_false]
        rw [pathIdx_append_singleton hp rest h']
        rfl

theorem wellTyped_set {l : List (Option Tab)} {n : Nat} {t : Tab}
    (hw : ∀ x ∈ l, x.isSome) : ∀ x ∈ l.set n (some t), x.isSome := by
  intro x hx
  rcases List.mem_or_eq_of_mem_set hx with h | h
  · exact hw x h
  · subst h; rfl

theorem wellTyped_append_singleton {l : List (Option Tab)} {t : Tab}
    (hw : ∀ x ∈ l, x.isSome) : ∀ x ∈ l ++ [some t], x.isSome := by
  intro x hx
  rcases List.mem_append.1 hx with h | h
  · exact hw x h
  · simp only [List.mem_singleton] at h
    subst h; rfl

theorem nodup_append_fresh {l : List String} {q : String}
    (hnd : l.Nodup) (hq : q ∉ l) : (l ++ [q]).Nodup :=
  List.Nodup.append hnd (List.nodup_singleton q)
    (fun a ha hb => hq (by simpa [List.mem_singleton.1 hb] using ha))

theorem spliceStart_le (len : Nat) (i : Int) : spliceStart len i ≤ len := by
  simp only [spliceStart]
  split
  · omega
  · omega

theorem someHasPath_eq_mem (p : String) :
    ∀ l : List (Option Tab), (∀ x ∈ l, x.isSome) →
      someHasPath l p = .ok (decide (p ∈ pathsOf l))
  | [], _ => by simp [someHasPath, pathsOf_nil]
  | none :: rest, hw => by
    have := hw none (List.mem_cons_self _ _)
    simp [Option.isSome] at this
  | some t :: rest, hw => by
    have ih := someHasPath_eq_mem p rest (fun x hx => hw x (List.mem_cons_of_mem _ hx))
    by_cases hp : t.path = p
    · simp [someHasPath, hp, pathsOf_cons_some]
    · simp [someHasPath, hp, pathsOf_cons_some, ih, Ne.symm hp]

/-! ## Example fixtures used by witnesses and counterexamples -/

/-- Example tab on path `/a`. -/
def exTabA : Tab := ⟨"/a", some []⟩

/-- Example tab on path `/b`. -/
def exTabB : Tab := ⟨"/b", some []⟩

/-- Example tab on path `/c`. -/
def exTabC : Tab := ⟨"/c", some []⟩

/-- Example three-tab state with active index `i`. -/
def exState3 (i : Int) : TabsState := ⟨[some exTabA, some exTabB, some exTabC], i⟩

/-- Example one-tab state on path `/`. -/
def exState1 : TabsState := ⟨[some ⟨"/", some []⟩], 0⟩

/-! ## Claims -/

/-- C4: on an invariant-satisfying state with at least two tabs and a tab
with path `P` at index `c`, `CLOSE_TAB(P)` removes exactly that tab and
sets the active index to `min(c, newLength-1)` if `c` was active, to
`active_index - 1` if `c` was below the active index, and leaves it
unchanged otherwise; if no tab has path `P` or there is a single tab, the
input state is returned unchanged. -/
theorem close_tab_spec (cfg : TabRouterConfig) (s : TabsState) (P : String)
    (c : Nat) (tb : Tab) (hw : WellTyped s) (hinv : StateInv s) :
    (2 ≤ s.tabs.length → s.tabs.get? c = some (some tb) → tb.path = P →
      tabsReducer cfg s (.closeTab P) =
        (let newTabs := s.tabs.eraseIdx c
         let newActive : Int :=
           if s.active_index = (c : Int) then min (c : Int) ((newTabs.length : Int) - 1)
           else if (c : Int) < s.active_index then s.active_index - 1
           else s.active_index
         .ok (⟨newTabs, newActive⟩, persistWrites cfg ⟨newTabs, newActive⟩))) ∧
    ((P ∉ pathsOf s.tabs ∨ s.tabs.length = 1) →
      tabsReducer cfg s (.closeTab P) = .ok (s, [])) := by
  constructor
  · intro hlen hget hpath
    have hpi : pathIdx s.tabs P = some c := pathIdx_of_get? hinv.2 hget hpath
    have hlt : c < s.tabs.length := pathIdx_lt_length hpi
    have hlenE : (s.tabs.eraseIdx c).length = s.tabs.length - 1 :=
      List.length_eraseIdx_of_lt hlt
    rw [reduce_closeTab_found hw hpi hlen]
    have hact : (if s.active_index = (c : Int) then
          min (c : Int) ((s.tabs.length : Int) - 2)
        else if s.active_index > (c : Int) then max 0 (s.active_index - 1)
        else s.active_index) =
        (if s.active_index = (c : Int) then
          min (c : Int) (((s.tabs.eraseIdx c).length : Int) - 1)
        else if (c : Int) < s.active_index then s.active_index - 1
        else s.active_index) := by
      by_cases h1 : s.active_index = (c : Int)
      · rw [if_pos h1, if_pos h1]
        have : ((s.tabs.eraseIdx c).length : Int) - 1 = (s.tabs.length : Int) - 2 := by
          rw [hlenE]; omega
        rw [this]
      · by_cases h2 : s.active_index > (c : Int)
        · rw [if_neg h1, if_neg h1, if_pos h2, if_pos (by omega : (c : Int) < s.active_index)]
          omega
        · rw [if_neg h1, if_neg h1, if_neg h2, if_neg (by omega : ¬(c : Int) < s.active_index)]
    simp only [hact]
  · intro h
    refine reduce_closeTab_noop hw ?_
    rcases h with h | h
    · exact Or.inl (pathIdx_eq_none_iff.2 h)
    · exact Or.inr (by omega)

/-- Witness for C4 at a concrete input: closing `/b` in a three-tab state
with active index 2. -/
theorem close_tab_spec_witness :
    (2 ≤ (exState3 2).tabs.length ∧ (exState3 2).tabs.get? 1 = some (some exTabB) ∧
      exTabB.path = "/b" ∧ WellTyped (exState3 2) ∧ StateInv (exState3 2)) ∧
    tabsReducer defaultConfig (exState3 2) (.closeTab "/b") =
      (let newTabs := (exState3 2).tabs.eraseIdx 1
       let newActive : Int :=
         if (exState3 2).active_index = (1 : Int) then
           min (1 : Int) ((newTabs.length : Int) - 1)
         else if (1 : Int) < (exState3 2).active_index then (exState3 2).active_index - 1
         else (exState3 2).active_index
       .ok (⟨newTabs, newActive⟩, persistWrites defaultConfig ⟨newTabs, newActive⟩)) :=
  ⟨⟨by decide, by decide, by decide, by decide, by decide⟩,
    (close_tab_spec defaultConfig (exState3 2) "/b" 1 exTabB (by decide) (by decide)).1
      (by decide) (by decide) (by decide)⟩

/-- C5: on an invariant-satisfying state, `ADD_TAB(t)` replaces in place
(and activates) the tab that already has `t.path`, or else appends `t`
and activates the new last index; consequently applying `ADD_TAB(t)`
twice yields the same final state as applying it once. -/
theorem add_tab_spec (cfg : TabRouterConfig) (s : TabsState) (t : Tab)
    (hw : WellTyped s) (hinv : StateInv s) :
    (∀ (i : Nat) (tb : Tab), s.tabs.get? i = some (some tb) → tb.path = t.path →
      tabsReducer cfg s (.addTab t) =
        .ok (⟨s.tabs.set i (some t), (i : Int)⟩,
          persistWrites cfg ⟨s.tabs.set i (some t), (i : Int)⟩)) ∧
    (t.path ∉ pathsOf s.tabs →
      tabsReducer cfg s (.addTab t) =
        .ok (⟨s.tabs ++ [some t], (s.tabs.length : Int)⟩,
          persistWrites cfg ⟨s.tabs ++ [some t], (s.tabs.length : Int)⟩)) ∧
    (∃ (ns : TabsState) (w w' : List StorageWrite),
      tabsReducer cfg s (.addTab t) = .ok (ns, w) ∧
        tabsReducer cfg ns (.addTab t) = .ok (ns, w')) := by
  refine ⟨?_, ?_, ?_⟩
  · intro i tb hget hpath
    exact reduce_addTab_found hw (pathIdx_of_get? hinv.2 hget hpath)
  · intro hmem
    exact reduce_addTab_new hw (pathIdx_eq_none_iff.2 hmem)
  · cases hpi : pathIdx s.tabs t.path with
    | some i =>
      obtain ⟨u, hget, hupath⟩ := pathIdx_get hpi
      have hlt : i < s.tabs.length := pathIdx_lt_length hpi
      have h1 := @reduce_addTab_found cfg s t i hw hpi
      have hw2 : WellTyped (⟨s.tabs.set i (some t), (i : Int)⟩ : TabsState) :=
        wellTyped_set hw
      have hpaths : pathsOf (s.tabs.set i (some t)) = pathsOf s.tabs :=
        pathsOf_set_same_path hget hupath
      have hget2 : (s.tabs.set i (some t)).get? i = some (some t) :=
        get?_set_self _ _ _ hlt
      have hpi2 : pathIdx (s.tabs.set i (some t)) t.path = some i :=
        pathIdx_of_get? (by rw [hpaths]; exact hinv.2) hget2 rfl
      have h2 := @reduce_addTab_found cfg ⟨s.tabs.set i (some t), (i : Int)⟩ t i hw2 hpi2
      refine ⟨⟨s.tabs.set i (some t), (i : Int)⟩,
        persistWrites cfg ⟨s.tabs.set i (some t), (i : Int)⟩,
        persistWrites cfg ⟨s.tabs.set i (some t), (i : Int)⟩, h1, ?_⟩
      rw [h2, List.set_set]
    | none =>
      have h1 := @reduce_addTab_new cfg s t hw hpi
      have hw2 : WellTyped (⟨s.tabs ++ [some t], (s.tabs.length : Int)⟩ : TabsState) :=
        wellTyped_append_singleton hw
      have hpi2 : pathIdx (s.tabs ++ [some t]) t.path = some s.tabs.length :=
        pathIdx_append_singleton rfl s.tabs hpi
      have h2 := @reduce_addTab_found cfg ⟨s.tabs ++ [some t], (s.tabs.length : Int)⟩ t
        s.tabs.length hw2 hpi2
      refine ⟨⟨s.tabs ++ [some t], (s.tabs.length : Int)⟩,
        persistWrites cfg ⟨s.tabs ++ [some t], (s.tabs.length : Int)⟩,
        persistWrites cfg ⟨s.tabs ++ [some t], (s.tabs.length : Int)⟩, h1, ?_⟩
      rw [h2, set_append_singleton]

/-- Witness for C5: adding `/b` (new params) to the three-tab state. -/
theorem add_tab_spec_witness :
    (WellTyped (exState3 0) ∧ StateInv (exState3 0)) ∧
    ((exState3 0).tabs.get? 1 = some (some exTabB) → exTabB.path = "/b" →
      tabsReducer defaultConfig (exState3 0) (.addTab ⟨"/b", some [("x", .num 1)]⟩) =
        .ok (⟨(exState3 0).tabs.set 1 (some ⟨"/b", some [("x", .num 1)]⟩), (1 : Int)⟩,
          persistWrites defaultConfig
            ⟨(exState3 0).tabs.set 1 (some ⟨"/b", some [("x", .num 1)]⟩), (1 : Int)⟩)) ∧
    (∃ (ns : TabsState) (w w' : List StorageWrite),
      tabsReducer defaultConfig (exState3 0) (.addTab ⟨"/b", some [("x", .num 1)]⟩) =
          .ok (ns, w) ∧
        tabsReducer defaultConfig ns (.addTab ⟨"/b", some [("x", .num 1)]⟩) = .ok (ns, w')) :=
  ⟨⟨by decide, by decide⟩,
    fun hg hp =>
      (add_tab_spec defaultConfig (exState3 0) ⟨"/b", some [("x", .num 1)]⟩
        (by decide) (by decide)).1 1 exTabB hg hp,
    (add_tab_spec defaultConfig (exState3 0) ⟨"/b", some [("x", .num 1)]⟩
      (by decide) (by decide)).2.2⟩

/-- C6: on an invariant-satisfying non-empty state, `REPLACE_TAB(t)` only
moves the active index when a tab with `t.path` already exists (leaving
every entry, including that tab's params, untouched), and otherwise
overwrites the tab at the active index with `t`, keeping list length and
active index unchanged. -/
theorem replace_tab_spec (cfg : TabRouterConfig) (s : TabsState) (t : Tab)
    (hw : WellTyped s) (hinv : StateInv s) (hne : s.tabs ≠ []) :
    (∀ (i : Nat) (tb : Tab), s.tabs.get? i = some (some tb) → tb.path = t.path →
      tabsReducer cfg s (.replaceTab t) =
        .ok ({ s with active_index := (i : Int) },
          persistWrites cfg { s with active_index := (i : Int) })) ∧
    (t.path ∉ pathsOf s.tabs →
      tabsReducer cfg s (.replaceTab t) =
        .ok ({ s with tabs := s.tabs.set s.active_index.toNat (some t) },
          persistWrites cfg
            { s with tabs := s.tabs.set s.active_index.toNat (some t) })) := by
  constructor
  · intro i tb hget hpath
    exact reduce_replaceTab_found hw (pathIdx_of_get? hinv.2 hget hpath)
  · intro hmem
    have hb := hinv.1 hne
    have hlt : s.active_index.toNat < s.tabs.length := by omega
    rw [reduce_replaceTab_new hw (pathIdx_eq_none_iff.2 hmem),
      jsSetElem_in_range t (by omega) hlt]

/-- Witness for C6: replacing with a fresh path `/x` in the three-tab
state with active index 1. -/
theorem replace_tab_spec_witness :
    (WellTyped (exState3 1) ∧ StateInv (exState3 1) ∧ (exState3 1).tabs ≠ [] ∧
      Tab.path ⟨"/x", none⟩ ∉ pathsOf (exState3 1).tabs) ∧
    tabsReducer defaultConfig (exState3 1) (.replaceTab ⟨"/x", none⟩) =
      .ok ({ exState3 1 with
              tabs := (exState3 1).tabs.set (exState3 1).active_index.toNat
                (some ⟨"/x", none⟩) },
        persistWrites defaultConfig
          { exState3 1 with
              tabs := (exState3 1).tabs.set (exState3 1).active_index.toNat
                (some ⟨"/x", none⟩) }) :=
  ⟨⟨by decide, by decide, by decide, by decide⟩,
    (replace_tab_spec defaultConfig (exState3 1) ⟨"/x", none⟩
      (by decide) (by decide) (by decide)).2 (by decide)⟩

/-- C9: on an invariant-satisfying state, `REORDER_TABS(i, i)` with
`0 ≤ i < length(tabs)` leaves the tab list equal to the input list and
sets the active index to `i`. -/
theorem reorder_same_index (cfg : TabRouterConfig) (s : TabsState) (i : Int)
    (_hw : WellTyped s) (_hinv : StateInv s) (h0 : 0 ≤ i)
    (hlt : i < (s.tabs.length : Int)) :
    tabsReducer cfg s (.reorderTabs i i) =
      .ok (⟨s.tabs, i⟩, persistWrites cfg ⟨s.tabs, i⟩) := by
  have hlt' : i.toNat < s.tabs.length := by omega
  rw [reduce_reorder_in_range h0 hlt' h0 hlt',
    insertIdx_eraseIdx_get s.tabs i.toNat hlt']

/-- Witness for C9: `REORDER_TABS(2, 2)` on the three-tab state. -/
theorem reorder_same_index_witness :
    (WellTyped (exState3 0) ∧ StateInv (exState3 0) ∧ (0 : Int) ≤ 2 ∧
      (2 : Int) < ((exState3 0).tabs.length : Int)) ∧
    tabsReducer defaultConfig (exState3 0) (.reorderTabs 2 2) =
      .ok (⟨(exState3 0).tabs, 2⟩, persistWrites defaultConfig ⟨(exState3 0).tabs, 2⟩) :=
  ⟨⟨by decide, by decide, by decide, by decide⟩,
    reorder_same_index defaultConfig (exState3 0) 2 (by decide) (by decide)
      (by decide) (by decide)⟩

/-- C10: on an invariant-satisfying state whose active tab's path is `P`,
`SET_ACTIVE_TAB(P)` is not short-circuited: it rebuilds a state equal to
the input and still performs both storage writes (the reducer produces a
fresh object; value equality is what the model can express). -/
theorem set_active_current_path (cfg : TabRouterConfig) (s : TabsState) (P : String)
    (hw : WellTyped s) (hinv : StateInv s) (hact : activePath s = some P) :
    tabsReducer cfg s (.setActiveTab P) =
      .ok (s, [.tabsJson cfg.storageKey s.tabs,
        .activeIdx cfg.activeTabStorageKey s.active_index]) := by
  by_cases h0 : s.active_index < 0
  · simp [activePath, h0] at hact
  · simp only [activePath, if_neg h0] at hact
    cases hg : s.tabs.get? s.active_index.toNat with
    | none => rw [hg] at hact; simp at hact
    | some o =>
      cases o with
      | none => rw [hg] at hact; simp at hact
      | some u =>
        rw [hg] at hact
        simp only [Option.some.injEq] at hact
        have hpi : pathIdx s.tabs P = some s.active_index.toNat :=
          pathIdx_of_get? hinv.2 hg hact
        rw [reduce_setActive_found hw hpi]
        have hcast : (s.active_index.toNat : Int) = s.active_index := by omega
        rw [hcast]
        rfl

/-- Witness for C10: `SET_ACTIVE_TAB("/b")` on the three-tab state whose
active tab is `/b`. -/
theorem set_active_current_path_witness :
    (WellTyped (exState3 1) ∧ StateInv (exState3 1) ∧
      activePath (exState3 1) = some "/b") ∧
    tabsReducer defaultConfig (exState3 1) (.setActiveTab "/b") =
      .ok (exState3 1, [.tabsJson defaultConfig.storageKey (exState3 1).tabs,
        .activeIdx defaultConfig.activeTabStorageKey (exState3 1).active_index]) :=
  ⟨⟨by decide, by decide, by decide⟩,
    set_active_current_path defaultConfig (exState3 1) "/b" (by decide) (by decide)
      (by decide)⟩

/-- C7: for every well-typed state and every command, the reducer either
takes one of the no-op early returns — exactly the branches claim C7
enumerates — returning the input state itself with no storage write, or
produces its new state and writes both the tab-list key and the
active-index key. -/
theorem persist_frame (cfg : TabRouterConfig) (s : TabsState) (a : TabsAction)
    (hw : WellTyped s) :
    ∃ ns : TabsState,
      tabsReducer cfg s a =
        .ok (ns,
          if noOpBranch s a then []
          else [.tabsJson cfg.storageKey ns.tabs,
            .activeIdx cfg.activeTabStorageKey ns.active_index]) ∧
      (noOpBranch s a → ns = s) := by
  cases a with
  | addTab t =>
    cases hpi : pathIdx s.tabs t.path with
    | some i =>
      refine ⟨⟨s.tabs.set i (some t), (i : Int)⟩, ?_, fun h => absurd h (by simp [noOpBranch])⟩
      rw [reduce_addTab_found hw hpi, if_neg (by simp [noOpBranch])]
      rfl
    | none =>
      refine ⟨⟨s.tabs ++ [some t], (s.tabs.length : Int)⟩, ?_,
        fun h => absurd h (by simp [noOpBranch])⟩
      rw [reduce_addTab_new hw hpi, if_neg (by simp [noOpBranch])]
      rfl
  | replaceTab t =>
    cases hpi : pathIdx s.tabs t.path with
    | some i =>
      refine ⟨{ s with active_index := (i : Int) }, ?_,
        fun h => absurd h (by simp [noOpBranch])⟩
      rw [reduce_replaceTab_found hw hpi, if_neg (by simp [noOpBranch])]
      rfl
    | none =>
      refine ⟨{ s with tabs := jsSetElem s.tabs s.active_index t }, ?_,
        fun h => absurd h (by simp [noOpBranch])⟩
      rw [reduce_replaceTab_new hw hpi, if_neg (by simp [noOpBranch])]
      rfl
  | closeTab p =>
    by_cases hno : pathIdx s.tabs p = none ∨ s.tabs.length < 2
    · refine ⟨s, ?_, fun _ => rfl⟩
      rw [reduce_closeTab_noop hw hno, if_pos (show noOpBranch s (.closeTab p) from hno)]
    · push_neg at hno
      obtain ⟨n, hpi⟩ := Option.ne_none_iff_exists'.1 hno.1
      have hlen : 2 ≤ s.tabs.length := by omega
      refine ⟨⟨s.tabs.eraseIdx n,
          if s.active_index = (n : Int) then min (n : Int) ((s.tabs.length : Int) - 2)
          else if s.active_index > (n : Int) then max 0 (s.active_index - 1)
          else s.active_index⟩, ?_,
        fun h => absurd h (by simp [noOpBranch, hpi]; omega)⟩
      rw [reduce_closeTab_found hw hpi hlen,
        if_neg (show ¬noOpBranch s (.closeTab p) by simp [noOpBranch, hpi]; omega)]
      rfl
  | closeOtherTabs p =>
    cases hpi : pathIdx s.tabs p with
    | none =>
      refine ⟨s, ?_, fun _ => rfl⟩
      rw [reduce_closeOthers_noop hw hpi, if_pos (show noOpBranch s (.closeOtherTabs p) from hpi)]
    | some n =>
      obtain ⟨u, hget, _⟩ := pathIdx_get hpi
      refine ⟨⟨[some u], 0⟩, ?_, fun h => absurd h (by simp [noOpBranch, hpi])⟩
      rw [reduce_closeOthers_found hw hpi hget, if_neg (by simp [noOpBranch, hpi])]
      rfl
  | setActiveTab p =>
    cases hpi : pathIdx s.tabs p with
    | none =>
      refine ⟨s, ?_, fun _ => rfl⟩
      rw [reduce_setActive_noop hw hpi, if_pos (show noOpBranch s (.setActiveTab p) from hpi)]
    | some n =>
      refine ⟨{ s with active_index := (n : Int) }, ?_,
        fun h => absurd h (by simp [noOpBranch, hpi])⟩
      rw [reduce_setActive_found hw hpi, if_neg (by simp [noOpBranch, hpi])]
      rfl
  | reorderTabs f t =>
    refine ⟨⟨spliceInsertOne (spliceRemoveOne s.tabs f).2 t (spliceRemoveOne s.tabs f).1, t⟩,
      ?_, fun h => absurd h (by simp [noOpBranch])⟩
    rw [reduce_reorder, if_neg (by simp [noOpBranch])]
    rfl
  | updateTabParams p ps =>
    cases hpi : pathIdx s.tabs p with
    | none =>
      refine ⟨s, ?_, fun _ => rfl⟩
      rw [reduce_update_noop hw hpi,
        if_pos (show noOpBranch s (.updateTabParams p ps) from hpi)]
    | some n =>
      obtain ⟨u, hget, _⟩ := pathIdx_get hpi
      refine ⟨⟨s.tabs.set n (some { u with params := some (ps.getD []) }), (n : Int)⟩, ?_,
        fun h => absurd h (by simp [noOpBranch, hpi])⟩
      rw [reduce_update_found hw hpi hget, if_neg (by simp [noOpBranch, hpi])]
      rfl

/-- Witness for C7: a no-op `CLOSE_TAB` on an unknown path performs no
write and returns the input state. -/
theorem persist_frame_witness :
    WellTyped (exState3 0) ∧
    (∃ ns : TabsState,
      tabsReducer defaultConfig (exState3 0) (.closeTab "/zzz") =
        .ok (ns,
          if noOpBranch (exState3 0) (.closeTab "/zzz") then []
          else [.tabsJson defaultConfig.storageKey ns.tabs,
            .activeIdx defaultConfig.activeTabStorageKey ns.active_index]) ∧
      (noOpBranch (exState3 0) (.closeTab "/zzz") → ns = exState3 0)) :=
  ⟨by decide, persist_frame defaultConfig (exState3 0) (.closeTab "/zzz") (by decide)⟩

/-- Counterexample to C3 as stated: on a one-tab state,
`REORDER_TABS(1, 0)` has `fromIndex = 1` outside `[0, 1)`, yet the
reducer does not return the input unchanged — it inserts an `undefined`
entry (a `none`) at the front and persists the damaged state. -/
theorem reorder_out_of_range_counterexample :
    StateInv exState1 ∧ WellTyped exState1 ∧
    ¬((0 : Int) ≤ 1 ∧ (1 : Int) < (exState1.tabs.length : Int)) ∧
    tabsReducer defaultConfig exState1 (.reorderTabs 1 0) =
      .ok (⟨[none, some ⟨"/", some []⟩], 0⟩,
        persistWrites defaultConfig ⟨[none, some ⟨"/", some []⟩], 0⟩) ∧
    (⟨[none, some ⟨"/", some []⟩], 0⟩ : TabsState) ≠ exState1 := by decide

/-- C3 amended: `REORDER_TABS` with an index outside `[0, length)` never
throws, but it is not a no-op: the splice clamps the indices (a negative
index counts back from the end), `active_index` becomes `toIndex`
unconditionally (possibly out of range), and whenever
`fromIndex ≥ length` an `undefined` entry is inserted into the list. -/
theorem reorder_out_of_range_behavior (cfg : TabRouterConfig) (s : TabsState)
    (f t : Int)
    (_h : f < 0 ∨ (s.tabs.length : Int) ≤ f ∨ t < 0 ∨ (s.tabs.length : Int) ≤ t) :
    ∃ (ns : TabsState) (w : List StorageWrite),
      tabsReducer cfg s (.reorderTabs f t) = .ok (ns, w) ∧
        ns.active_index = t ∧
        ((s.tabs.length : Int) ≤ f → none ∈ ns.tabs) := by
  refine ⟨⟨spliceInsertOne (spliceRemoveOne s.tabs f).2 t (spliceRemoveOne s.tabs f).1, t⟩,
    _, reduce_reorder s f t, rfl, ?_⟩
  intro hf
  rw [spliceRemoveOne_high hf]
  have hle : spliceStart s.tabs.length t ≤ s.tabs.length := spliceStart_le _ _
  exact (List.mem_insertIdx hle).2 (Or.inl rfl)

/-- Witness for the amended C3 at a concrete input. -/
theorem reorder_out_of_range_behavior_witness :
    ((1 : Int) < 0 ∨ (exState1.tabs.length : Int) ≤ 1 ∨ (0 : Int) < 0 ∨
      (exState1.tabs.length : Int) ≤ 0) ∧
    (∃ (ns : TabsState) (w : List StorageWrite),
      tabsReducer defaultConfig exState1 (.reorderTabs 1 0) = .ok (ns, w) ∧
        ns.active_index = 0 ∧
        ((exState1.tabs.length : Int) ≤ 1 → none ∈ ns.tabs)) :=
  ⟨by decide, reorder_out_of_range_behavior defaultConfig exState1 1 0 (by decide)⟩

/-- The restriction the C1 counterexample forces: `REORDER_TABS` is only
considered with both indices inside `[0, length(tabs))`; every other
command is unrestricted. -/
def reorderInRange (s : TabsState) : TabsAction → Prop
  | .reorderTabs f t =>
    0 ≤ f ∧ f < (s.tabs.length : Int) ∧ 0 ≤ t ∧ t < (s.tabs.length : Int)
  | _ => True

instance (s : TabsState) : DecidablePred (reorderInRange s) := fun a => by
  unfold reorderInRange; cases a <;> infer_instance

/-- Counterexample to C1 as stated: the one-tab state satisfies both
invariants, yet `REORDER_TABS(0, 5)` — part of the command vocabulary
with arbitrary integer indices — yields `active_index = 5` on a one-tab
list, violating the bounds invariant. -/
theorem invariant_preservation_counterexample :
    StateInv exState1 ∧ WellTyped exState1 ∧
    tabsReducer defaultConfig exState1 (.reorderTabs 0 5) =
      .ok (⟨[some ⟨"/", some []⟩], 5⟩,
        persistWrites defaultConfig ⟨[some ⟨"/", some []⟩], 5⟩) ∧
    ¬StateInv ⟨[some ⟨"/", some []⟩], 5⟩ := by decide

/-- C1 amended: every command of the vocabulary preserves both §3
invariants on well-typed states, except that `REORDER_TABS` requires its
two indices to lie inside `[0, length(tabs))` (out-of-range reordering
can break both invariants, as the counterexample shows). -/
theorem invariant_preservation (cfg : TabRouterConfig) (s : TabsState) (a : TabsAction)
    (hw : WellTyped s) (hinv : StateInv s) (hre : reorderInRange s a) :
    ∃ (ns : TabsState) (w : List StorageWrite),
      tabsReducer cfg s a = .ok (ns, w) ∧ StateInv ns := by
  cases a with
  | addTab t =>
    cases hpi : pathIdx s.tabs t.path with
    | some i =>
      obtain ⟨u, hget, hupath⟩ := pathIdx_get hpi
      have hlt : i < s.tabs.length := pathIdx_lt_length hpi
      refine ⟨_, _, reduce_addTab_found hw hpi, ?_, ?_⟩
      · intro _
        simp only [List.length_set]
        omega
      · rw [pathsOf_set_same_path hget hupath]
        exact hinv.2
    | none =>
      refine ⟨_, _, reduce_addTab_new hw hpi, ?_, ?_⟩
      · intro _
        simp only [List.length_append, List.length_singleton]
        omega
      · rw [pathsOf_append]
        exact nodup_append_fresh hinv.2 (pathIdx_eq_none_iff.1 hpi)
  | replaceTab t =>
    cases hpi : pathIdx s.tabs t.path with
    | some i =>
      have hlt : i < s.tabs.length := pathIdx_lt_length hpi
      refine ⟨_, _, reduce_replaceTab_found hw hpi, ?_, hinv.2⟩
      intro _
      dsimp only
      omega
    | none =>
      have hfresh : t.path ∉ pathsOf s.tabs := pathIdx_eq_none_iff.1 hpi
      refine ⟨_, _, reduce_replaceTab_new hw hpi, ?_⟩
      by_cases hneg : s.active_index < 0
      · simp only [jsSetElem, if_pos hneg]
        exact hinv
      · by_cases hemp : s.tabs = []
        · have hlen0 : s.tabs.length = 0 := by rw [hemp]; rfl
          simp only [jsSetElem, if_neg hneg, if_neg (by omega : ¬s.active_index.toNat < s.tabs.length)]
          constructor
          · intro _
            simp only [List.length_append, List.length_replicate, List.length_singleton]
            omega
          · rw [List.append_assoc, pathsOf_append, pathsOf_append, hemp,
              pathsOf_replicate_none]
            simp [pathsOf_cons_some, pathsOf_nil]
        · have hb := hinv.1 hemp
          have hlt : s.active_index.toNat < s.tabs.length := by omega
          rw [jsSetElem_in_range t (by omega) hlt]
          constructor
          · intro _
            simp only [List.length_set]
            omega
          · exact nodup_pathsOf_set hinv.2 hfresh
  | closeTab p =>
    by_cases hno : pathIdx s.tabs p = none ∨ s.tabs.length < 2
    · exact ⟨s, [], reduce_closeTab_noop hw hno, hinv⟩
    · push_neg at hno
      obtain ⟨n, hpi⟩ := Option.ne_none_iff_exists'.1 hno.1
      have hlen : 2 ≤ s.tabs.length := by omega
      have hlt : n < s.tabs.length := pathIdx_lt_length hpi
      have hlenE : (s.tabs.eraseIdx n).length = s.tabs.length - 1 :=
        List.length_eraseIdx_of_lt hlt
      have hne : s.tabs ≠ [] := by
        intro h
        rw [h] at hlen
        simp at hlen
      have hb := hinv.1 hne
      refine ⟨_, _, reduce_closeTab_found hw hpi hlen, ?_, ?_⟩
      · intro _
        dsimp only
        rw [hlenE]
        split_ifs <;> omega
      · exact List.Nodup.sublist ((s.tabs.eraseIdx_sublist n).filterMap _) hinv.2
  | closeOtherTabs p =>
    cases hpi : pathIdx s.tabs p with
    | none => exact ⟨s, [], reduce_closeOthers_noop hw hpi, hinv⟩
    | some n =>
      obtain ⟨u, hget, _⟩ := pathIdx_get hpi
      refine ⟨_, _, reduce_closeOthers_found hw hpi hget, ?_, ?_⟩
      · intro _
        simp
      · simp [pathsOf_cons_some, pathsOf_nil]
  | setActiveTab p =>
    cases hpi : pathIdx s.tabs p with
    | none => exact ⟨s, [], reduce_setActive_noop hw hpi, hinv⟩
    | some n =>
      have hlt : n < s.tabs.length := pathIdx_lt_length hpi
      refine ⟨_, _, reduce_setActive_found hw hpi, ?_, hinv.2⟩
      intro _
      dsimp only
      omega
  | reorderTabs f t =>
    obtain ⟨hf0, hf, ht0, ht⟩ := hre
    have hf' : f.toNat < s.tabs.length := by omega
    have ht' : t.toNat < s.tabs.length := by omega
    have hlenE : (s.tabs.eraseIdx f.toNat).length = s.tabs.length - 1 :=
      List.length_eraseIdx_of_lt hf'
    refine ⟨_, _, reduce_reorder_in_range hf0 hf' ht0 ht', ?_, ?_⟩
    · intro _
      dsimp only
      rw [List.length_insertIdx _ _ (by omega), hlenE]
      omega
    · have hperm :
          ((s.tabs.eraseIdx f.toNat).insertIdx t.toNat (s.tabs.get ⟨f.toNat, hf'⟩)).Perm
            s.tabs :=
        (List.perm_insertIdx _ _ (by omega)).trans
          (get_cons_eraseIdx_perm s.tabs f.toNat hf')
      exact ((hperm.filterMap _).nodup_iff).2 hinv.2
  | updateTabParams p ps =>
    cases hpi : pathIdx s.tabs p with
    | none => exact ⟨s, [], reduce_update_noop hw hpi, hinv⟩
    | some n =>
      obtain ⟨u, hget, _⟩ := pathIdx_get hpi
      have hlt : n < s.tabs.length := pathIdx_lt_length hpi
      refine ⟨_, _, reduce_update_found hw hpi hget, ?_, ?_⟩
      · intro _
        simp only [List.length_set]
        omega
      · dsimp only
        rw [@pathsOf_set_same_path s.tabs n u ⟨u.path, some (ps.getD [])⟩ hget rfl]
        exact hinv.2

/-- Witness for the amended C1: an in-range reorder on the three-tab
state yields a state satisfying both invariants. -/
theorem invariant_preservation_witness :
    (WellTyped (exState3 0) ∧ StateInv (exState3 0) ∧
      reorderInRange (exState3 0) (.reorderTabs 0 2)) ∧
    (∃ (ns : TabsState) (w : List StorageWrite),
      tabsReducer defaultConfig (exState3 0) (.reorderTabs 0 2) = .ok (ns, w) ∧
        StateInv ns) :=
  ⟨⟨by decide, by decide, by decide⟩,
    invariant_preservation defaultConfig (exState3 0) (.reorderTabs 0 2)
      (by decide) (by decide) (by decide)⟩

/-- C2 (code bug): a stored tab-list snapshot `"[]"` parses to the empty
array, which is truthy in JavaScript, so `JSON.parse(stored) || [initialTab]`
keeps it: `getInitialState` returns `{tabs: [], active_index: 0}` instead
of the single-tab default the spec requires.  (An unparseable snapshot is
even worse: the `JSON.parse` exception propagates, as the second conjunct
shows.) -/
theorem get_initial_state_malformed_eval :
    getInitialState defaultConfig (fun _ => .ok (.arrV [])) (fun _ => none)
        (some "[]") none =
      .ok { tabs := .arrV [], active_index := 0 } ∧
    Js.arrV [] ≠ (defaultInitState defaultConfig).tabs ∧
    getInitialState defaultConfig (fun _ => .error ()) (fun _ => none)
        (some "not json") none =
      .error () := by
  refine ⟨rfl, ?_, rfl⟩
  intro h
  injection h with h'
  exact List.noConfusion h'

/-- C8: with the default not prevented and no modifier key held, the
`Link` click handler invokes exactly one facade operation, chosen by the
precedence: `target="_blank"` wins (push), else the `replace` flag wins
(replace), else an already-open destination wins (switchToPath), else
push. -/
theorem link_click_precedence (tabs : List (Option Tab)) (target : Option String)
    (replaceFlag : Bool) (e : ClickEvent) (dest : ParsedHref)
    (hw : ∀ x ∈ tabs, x.isSome) (hdp : e.defaultPrevented = false)
    (hmk : e.metaKey = false) (hck : e.ctrlKey = false) (hsk : e.shiftKey = false)
    (hak : e.altKey = false) :
    handleClick tabs target replaceFlag e dest =
      .ok (some
        (if target = some "_blank" then .pushOp dest.path dest.params
         else if replaceFlag then .replaceOp dest.path dest.params
         else if dest.path ∈ pathsOf tabs then .switchOp dest.path
         else .pushOp dest.path dest.params)) := by
  have hguard : (e.defaultPrevented || e.metaKey || e.ctrlKey || e.shiftKey || e.altKey) = false := by
    rw [hdp, hmk, hck, hsk, hak]
    rfl
  by_cases htg : target = some "_blank"
  · simp only [handleClick, hguard, Bool.false_eq_true, if_false, htg, if_pos rfl, if_true]
  · simp only [handleClick, hguard, Bool.false_eq_true, if_false, if_neg htg,
      someHasPath_eq_mem dest.path tabs hw]
    by_cases hrf : replaceFlag = true
    · subst hrf
      simp [htg]
    · have hrf' : replaceFlag = false := by
        cases replaceFlag
        · rfl
        · exact absurd rfl hrf
      subst hrf'
      by_cases hmem : dest.path ∈ pathsOf tabs
      · simp [htg, hmem]
      · simp [htg, hmem]

/-- Witness for C8: a click on an already-open destination with no target
hint and no replace flag switches to the existing tab. -/
theorem link_click_precedence_witness :
    (∀ x ∈ [some exTabA, some exTabB], Option.isSome x) ∧
    handleClick [some exTabA, some exTabB] none false ⟨false, false, false, false, false⟩
        ⟨"/b", [], ""⟩ =
      .ok (some
        (if (none : Option String) = some "_blank" then
          NavOp.pushOp "/b" []
         else if false then NavOp.replaceOp "/b" []
         else if "/b" ∈ pathsOf [some exTabA, some exTabB] then NavOp.switchOp "/b"
         else NavOp.pushOp "/b" [])) :=
  ⟨by decide,
    link_click_precedence [some exTabA, some exTabB] none false
      ⟨false, false, false, false, false⟩ ⟨"/b", [], ""⟩ (by decide) rfl rfl rfl rfl rfl⟩
